import Mathlib

/-!
Verification of the fc-blackbox decoder core: a shallow embedding of the
varint / sign-extension primitives, the field codecs, the body-record
router, the predictor/history engine and the record iterator, together
with theorems settling the specification claims about them.

Byte streams are modelled as `List Nat` (each element a `u8` value), the
`nom` result type as `PR`, Rust panics as an explicit `PR.panic` /
`PanicOr.panic` outcome, and machine integers as `Nat` / `Int` with
explicit `% 2 ^ w` masking where the Rust code can drop bits.
-/

namespace Blackbox

/-- Outcome of a `nom`-style parser (`IResult`), extended with a `panic`
constructor for Rust-level panics (`panic!` / `unimplemented!` / an
out-of-bounds index). `err` models `nom::Err::Error`, `fail` models
`nom::Err::Failure`, `incomplete` models `nom::Err::Incomplete`; the
`List Nat` argument of `err` / `fail` is the input position stored in the
error value. -/
inductive PR (α : Type) where
  | ok (rest : List Nat) (val : α)
  | err (pos : List Nat)
  | fail (pos : List Nat)
  | incomplete
  | panic
deriving Repr, DecidableEq

/-- Monadic composition of `PR` parsers: errors, failures, `incomplete`
and panics propagate unchanged (the `?` operator on `IResult`). -/
def PR.bind {α β : Type} (r : PR α) (f : List Nat → α → PR β) : PR β :=
  match r with
  | .ok rest v => f rest v
  | .err p => .err p
  | .fail p => .fail p
  | .incomplete => .incomplete
  | .panic => .panic

/-- Map over the value of a `PR` result. -/
def PR.map {α β : Type} (r : PR α) (f : α → β) : PR β :=
  r.bind fun rest v => .ok rest (f v)

/-- Reinterpret the low `w` bits of a natural number as a `w`-bit
two's-complement signed integer (the effect of Rust's
`wrapping_shl(32-w)` followed by an arithmetic `wrapping_shr(32-w)`,
and of `as i8` / `as i16` / `as i32` casts). -/
def toSigned (w : Nat) (n : Nat) : Int :=
  if n % 2 ^ w < 2 ^ (w - 1) then ((n % 2 ^ w : Nat) : Int)
  else ((n % 2 ^ w : Nat) : Int) - 2 ^ w

/-- `sign_extend(x, nbits)` from `frame/mod.rs` at type `i32`, applied to a
non-negative value: keep the low `nbits` bits and replicate the top one. -/
def sign_extend (nbits : Nat) (x : Nat) : Int :=
  toSigned nbits x

/-- `sign_extend_14bit(word)` from `frame/mod.rs`: `word` is a `u16`; if
bit 13 is set, `(word | 0xC000) as i16 as i32`, else `word as i32`. -/
def sign_extend_14bit (word : Nat) : Int :=
  if word &&& 0x2000 ≠ 0 then toSigned 16 (word ||| 0xC000)
  else ((word : Nat) : Int)

/-- `zigzag_decode(from)` from `frame/mod.rs`:
`((from >> 1) ^ (-((from & 1) as i32)) as u32) as i32` on a `u32`. -/
def zigzag_decode (n : Nat) : Int :=
  toSigned 32 ((n >>> 1) ^^^ ((2 ^ 32 - (n &&& 1)) % 2 ^ 32))

/-- The loop body of `take_varint`: `fuel` counts the remaining
iterations of `for position in 0..5`, `res` is the `u32` accumulator.
Reading a byte from an empty stream is `nom`'s streaming `le_u8`, hence
`incomplete`; a fifth continuation bit falls out of the loop into
`Err(nom::Err::Failure(.., ErrorKind::TooLarge))` at the position after
the five consumed bytes. The shift `(value as u32) << (position * 7)`
drops bits 32 and above, hence the `% 2 ^ 32`. -/
def take_varint_loop : Nat → Nat → Nat → List Nat → PR Nat
  | 0, _, _, input => .fail input
  | _ + 1, _, _, [] => .incomplete
  | fuel + 1, position, res, byte :: rest =>
    let value := byte &&& 127
    let res2 := res ||| (value <<< (position * 7)) % 2 ^ 32
    if byte &&& 128 = 0 then .ok rest res2
    else take_varint_loop fuel (position + 1) res2 rest

/-- `take_varint` from `frame/mod.rs`: little-endian unsigned varint of at
most five bytes, result a `u32`. -/
def take_varint (input : List Nat) : PR Nat :=
  take_varint_loop 5 0 0 input

/-- A decoded field group (`Field` in `frame/mod.rs`). -/
inductive Field where
  | unsigned (v : Nat)
  | signed (v : Int)
  | signedTriple (v : Int × Int × Int)
  | signedQuadruple (v : Int × Int × Int × Int)
  | signedOctuple (vs : List Int) (n : Nat)
deriving Repr, DecidableEq

/-- Flattening of a `Field` into `i64` values, as done by
`parse_owned_frame_payload` in `frame/data.rs` (an octuple contributes its
first `n` values). -/
def Field.toI64s : Field → List Int
  | .unsigned v => [(v : Int)]
  | .signed v => [v]
  | .signedTriple (a, b, c) => [a, b, c]
  | .signedQuadruple (a, b, c, d) => [a, b, c, d]
  | .signedOctuple vs n => vs.take n

/-- Grouped field encodings (`FieldEncoding` in `frame/mod.rs`). -/
inductive FieldEncoding where
  | signedVB
  | unsignedVB
  | negative14BitVB
  | tag8_8SVB (n : Nat)
  | tag2_3S32 (n : Nat)
  | tag8_4S16 (n : Nat)
  | null
  | tag2_3SVariable (n : Nat)
deriving Repr, DecidableEq

/-- `nom`'s complete `be_u8`: one byte, `Error` (not `Incomplete`) on an
empty stream. -/
def be_u8 (input : List Nat) : PR Nat :=
  match input with
  | [] => .err input
  | b :: rest => .ok rest b

/-- `nom`'s streaming `take(k)` / fixed-width little-endian number
readers: consume exactly `k` bytes, `Incomplete` when fewer remain. -/
def take_bytes : Nat → List Nat → PR (List Nat)
  | 0, input => .ok input []
  | _ + 1, [] => .incomplete
  | k + 1, b :: rest => (take_bytes k rest).map fun bs => b :: bs

/-- Assemble a little-endian byte list into an unsigned value. -/
def le_value (bs : List Nat) : Nat :=
  bs.foldr (fun b acc => acc * 256 + b) 0

/-- `read_value(selector, input)` of the `Tag2_3S32` mode `11` decoder:
selector `00` reads an `i8`, `01` an `i16`, `10` an `i24`, `11` an `i32`,
all little-endian and sign-extended (nom's streaming `le_i8` /
`le_i16` / `le_i24` / `le_i32`). -/
def read_tag2_3s32_value (selector : Nat) (input : List Nat) : PR Int :=
  match selector with
  | 0 => (take_bytes 1 input).map fun bs => toSigned 8 (le_value bs)
  | 1 => (take_bytes 2 input).map fun bs => toSigned 16 (le_value bs)
  | 2 => (take_bytes 3 input).map fun bs => toSigned 24 (le_value bs)
  | _ => (take_bytes 4 input).map fun bs => toSigned 32 (le_value bs)

/-- The `Tag2_3S32` arm of `FieldEncoding::parse`: one header byte whose
top two bits select the mode, then three signed values. -/
def parse_tag2_3s32 (input : List Nat) : PR Field :=
  (be_u8 input).bind fun input byte1 =>
    match byte1 >>> 6 with
    | 0 =>
      .ok input (.signedTriple
        (sign_extend 2 (byte1 >>> 4), sign_extend 2 (byte1 >>> 2), sign_extend 2 byte1))
    | 1 =>
      (be_u8 input).bind fun input byte2 =>
        .ok input (.signedTriple
          (sign_extend 4 byte1, sign_extend 4 (byte2 >>> 4), sign_extend 4 byte2))
    | 2 =>
      (be_u8 input).bind fun input byte2 =>
        (be_u8 input).bind fun input byte3 =>
          .ok input (.signedTriple
            (sign_extend 6 byte1, sign_extend 6 byte2, sign_extend 6 byte3))
    | _ =>
      let selector1 := byte1 &&& 3
      let selector2 := (byte1 >>> 2) &&& 3
      let selector3 := (byte1 >>> 4) &&& 3
      (read_tag2_3s32_value selector1 input).bind fun input value1 =>
        (read_tag2_3s32_value selector2 input).bind fun input value2 =>
          (read_tag2_3s32_value selector3 input).bind fun input value3 =>
            .ok input (.signedTriple (value1, value2, value3))

/-- Nibble widths selected by the two-bit selectors of `Tag8_4S16`. -/
def n_nibbles (selector : Nat) : Nat :=
  match selector with
  | 0 => 0
  | 1 => 1
  | 2 => 2
  | _ => 4

/-- The inner loop of `read_value` in the `Tag8_4S16` arm: consume
`nibbles_to_read` nibbles (most significant nibble first) starting at
nibble position `pos` of `bytes`, accumulating into `v`. -/
def read_nibbles (bytes : List Nat) : Nat → Nat → Nat → Nat
  | _, 0, v => v
  | pos, k + 1, v =>
    let b := bytes.getD (pos / 2) 0
    let nib := (if pos % 2 = 0 then b >>> 4 else b) &&& 0x0f
    read_nibbles bytes (pos + 1) k (v * 16 + nib)

/-- The `Tag8_4S16` arm of `FieldEncoding::parse`: a selector byte, then
`(total_nibbles + 1) / 2` payload bytes packed high-nibble-first, read
into four `i16` values sign-extended from their nibble widths. -/
def parse_tag8_4s16 (input : List Nat) : PR Field :=
  (be_u8 input).bind fun input selectors =>
    let n0 := n_nibbles (selectors &&& 3)
    let n1 := n_nibbles ((selectors >>> 2) &&& 3)
    let n2 := n_nibbles ((selectors >>> 4) &&& 3)
    let n3 := n_nibbles ((selectors >>> 6) &&& 3)
    let total_bytes := (n0 + n1 + n2 + n3 + 1) / 2
    (take_bytes total_bytes input).bind fun input bytes =>
      let v0 := toSigned (n0 * 4) (read_nibbles bytes 0 n0 0)
      let v1 := toSigned (n1 * 4) (read_nibbles bytes n0 n1 0)
      let v2 := toSigned (n2 * 4) (read_nibbles bytes (n0 + n1) n2 0)
      let v3 := toSigned (n3 * 4) (read_nibbles bytes (n0 + n1 + n2) n3 0)
      .ok input (.signedQuadruple (v0, v1, v2, v3))

/-- The per-index loop of the `Tag8_8SVB` arm: for `i` in `0..fields_n`,
read a zigzag varint into slot `i` when bit `i` of the selector byte is
set; `k` is the number of remaining indices. -/
def tag8_8svb_loop : Nat → Nat → Nat → List Nat → List Int → PR (List Int)
  | 0, _, _, input, values => .ok input values
  | k + 1, i, selectors, input, values =>
    if selectors &&& (1 <<< i) ≠ 0 then
      (take_varint input).bind fun input varint =>
        tag8_8svb_loop k (i + 1) selectors input (values.set i (zigzag_decode varint))
    else tag8_8svb_loop k (i + 1) selectors input values

/-- The `Tag8_8SVB` arm of `FieldEncoding::parse`. -/
def parse_tag8_8svb (fields_n : Nat) (input : List Nat) : PR Field :=
  if fields_n = 1 then
    (take_varint input).map fun varint =>
      .signedOctuple ((List.replicate 8 (0 : Int)).set 0 (zigzag_decode varint)) fields_n
  else
    (be_u8 input).bind fun input selectors =>
      (tag8_8svb_loop fields_n 0 selectors input (List.replicate 8 0)).map fun values =>
        .signedOctuple values fields_n

/-- `FieldEncoding::parse` from `frame/mod.rs`. `Tag2_3SVariable` hits the
`unimplemented!` arm, i.e. a panic. `Negative14BitVB` truncates the
varint with `as u16` before `sign_extend_14bit`. -/
def FieldEncoding.parse (e : FieldEncoding) (input : List Nat) : PR Field :=
  match e with
  | .null => .ok input (.unsigned 0)
  | .unsignedVB => (take_varint input).map fun varint => .unsigned varint
  | .signedVB => (take_varint input).map fun varint => .signed (zigzag_decode varint)
  | .negative14BitVB =>
    (take_varint input).map fun varint => .signed (-(sign_extend_14bit (varint % 2 ^ 16)))
  | .tag2_3S32 _ => parse_tag2_3s32 input
  | .tag8_4S16 _ => parse_tag8_4s16 input
  | .tag8_8SVB n => parse_tag8_8svb n input
  | .tag2_3SVariable _ => .panic

/-- Worker for `nom_tag`: compare the expected bytes against the input,
remembering the original input for the error position. -/
def nom_tag_go : List Nat → List Nat → List Nat → PR Unit
  | [], rest, _ => .ok rest ()
  | _ :: _, [], _ => .incomplete
  | t :: ts, b :: rest, orig => if b = t then nom_tag_go ts rest orig else .err orig

/-- `nom`'s streaming `tag` on a byte string: a mismatch within the
available bytes is an `Error` positioned at the start of the tag, a
matching but short input is `Incomplete`. -/
def nom_tag (t : List Nat) (input : List Nat) : PR Unit :=
  nom_tag_go t input input

/-- An event frame (`frame/event.rs`). The payload of a float in-flight
adjustment is kept as the raw little-endian bit pattern of the `f32`. -/
inductive Adjustment where
  | float (bits : Nat)
  | int (v : Int)
deriving Repr, DecidableEq

/-- `event::Frame` from `frame/event.rs`. -/
inductive EventFrame where
  | syncBeep (time : Nat)
  | flightMode (flags old_flags : Nat)
  | disarm (reason : Nat)
  | inFlightAdjustment (function : Nat) (adjustment : Adjustment)
  | loggingResume (iteration time : Nat)
  | endOfLog
deriving Repr, DecidableEq

/-- The bytes of the literal `"End of log\0"`. -/
def end_of_log_bytes : List Nat := [69, 110, 100, 32, 111, 102, 32, 108, 111, 103, 0]

/-- `parse_event` from `frame/event.rs`: the `'E'` tag, one discriminator
byte (streaming `le_u8`), then the event payload; an unknown event code
hits `unimplemented!`, i.e. a panic. -/
def parse_event (input : List Nat) : PR EventFrame :=
  (nom_tag [69] input).bind fun input _ =>
    match input with
    | [] => .incomplete
    | event_code :: input =>
      match event_code with
      | 0 => (take_varint input).map fun time => .syncBeep time
      | 13 =>
        (be_u8 input).bind fun input function =>
          if function &&& 128 ≠ 0 then
            (take_bytes 4 input).map fun bs =>
              .inFlightAdjustment (function &&& 127) (.float (le_value bs))
          else
            (take_varint input).map fun varint =>
              .inFlightAdjustment function (.int (zigzag_decode varint))
      | 14 =>
        (take_varint input).bind fun input iteration =>
          (take_varint input).map fun time => .loggingResume iteration time
      | 15 => (take_varint input).map fun reason => .disarm reason
      | 30 =>
        (take_varint input).bind fun input flags =>
          (take_varint input).map fun old_flags => .flightMode flags old_flags
      | 255 => (nom_tag end_of_log_bytes input).map fun _ => .endOfLog
      | _ => .panic

/-- A decoded body frame (`BodyFrame` in `frame/mod.rs`), with the owned
`i64` buffers of `frame/data.rs`. -/
inductive BodyFrame where
  | event (f : EventFrame)
  | iFrame (buf : List Int)
  | pFrame (buf : List Int)
  | sFrame (buf : List Int)
  | gFrame (buf : List Int)
  | hFrame (buf : List Int)
deriving Repr, DecidableEq

/-- `parse_owned_frame_payload` from `frame/data.rs`: apply the grouped
encodings in order, flattening each decoded `Field` into `i64` values. -/
def parse_owned_frame_payload : List FieldEncoding → List Nat → PR (List Int)
  | [], input => .ok input []
  | e :: es, input =>
    (e.parse input).bind fun input fld =>
      (parse_owned_frame_payload es input).bind fun input vs =>
        .ok input (fld.toI64s ++ vs)

/-- The common shape of `parse_owned_iframe` / `..pframe` / `..sframe` /
`..gframe` / `..hframe` from `frame/data.rs`: an empty encoding list is a
`Failure(ErrorKind::Verify)`, then the one-byte tag letter, then the
payload. -/
def parse_owned_frame (tag_byte : Nat) (field_encodings : List FieldEncoding)
    (input : List Nat) : PR (List Int) :=
  if field_encodings.isEmpty then .fail input
  else
    (nom_tag [tag_byte] input).bind fun input _ =>
      parse_owned_frame_payload field_encodings input

/-- The parts of the parsed `Header` (`stream/header.rs`) that drive the
body-record router: the grouped encoding list of each record class. -/
structure Header where
  i_field_encodings : List FieldEncoding
  p_field_encodings : List FieldEncoding
  s_field_encodings : List FieldEncoding
  g_field_encodings : List FieldEncoding
  h_field_encodings : List FieldEncoding
deriving Repr, DecidableEq

/-- `parse_next_frame` from `stream/data.rs`: dispatch on `input[0]`.
Indexing an empty slice is a Rust panic, as is the
`panic!("Unknown frame …")` arm for a leading byte that is none of
`I P S G H E` or the `0xFF` padding (which is an `Error`). -/
def parse_next_frame (header : Header) (input : List Nat) : PR BodyFrame :=
  match input with
  | [] => .panic
  | b :: _ =>
    if b = 73 then (parse_owned_frame 73 header.i_field_encodings input).map .iFrame
    else if b = 80 then (parse_owned_frame 80 header.p_field_encodings input).map .pFrame
    else if b = 83 then (parse_owned_frame 83 header.s_field_encodings input).map .sFrame
    else if b = 71 then (parse_owned_frame 71 header.g_field_encodings input).map .gFrame
    else if b = 72 then (parse_owned_frame 72 header.h_field_encodings input).map .hFrame
    else if b = 69 then (parse_event input).map .event
    else if b = 255 then .err input
    else .panic

/-- A non-negative rational, modelling `num_rational::Ratio<u16>`
(numerator / denominator kept reduced by `Ratio::new`). -/
structure Frac where
  numer : Nat
  denom : Nat
deriving Repr, DecidableEq

/-- `Ratio::new`: reduce by the gcd. -/
def Frac.new (n d : Nat) : Frac :=
  let g := Nat.gcd n d
  ⟨n / g, d / g⟩

/-- `Ratio` addition (result in reduced form, as `num_rational` keeps it). -/
def Frac.add (r s : Frac) : Frac :=
  Frac.new (r.numer * s.denom + s.numer * r.denom) (r.denom * s.denom)

/-- `Ratio::recip`: swap numerator and denominator. -/
def Frac.recip (r : Frac) : Frac :=
  ⟨r.denom, r.numer⟩

/-- `Ratio::to_integer`: truncating division of numerator by denominator. -/
def Frac.to_integer (r : Frac) : Nat :=
  r.numer / r.denom

/-- `IncPredictor` from `stream/predictor.rs`: the stateful `Increment`
P-predictor. -/
structure IncPredictor where
  field_ix : Nat
  increment : Frac
  running_sum : Frac
  base : Int
  expected_value : Int
deriving Repr, DecidableEq

/-- `IncPredictor::new`: step size is the reciprocal of `p_interval`,
the running sum starts at `0 / increment.denom`. -/
def IncPredictor.new (field_ix : Nat) (p_interval : Frac) : IncPredictor :=
  let increment := p_interval.recip
  { field_ix
    running_sum := Frac.new 0 increment.denom
    increment
    base := 0
    expected_value := 0 }

/-- I-class predictors after header binding (`AnyIPredictor`):
`AddConstantPredictor { base, field_ix }` or
`AddFieldPredictor { base_field_ix, field_ix }`. -/
inductive AnyIPredictor where
  | addConstant (base : Int) (field_ix : Nat)
  | addField (base_field_ix : Nat) (field_ix : Nat)
deriving Repr, DecidableEq

/-- `AnyIPredictor::predict`: writes `current[field_ix]`; only the
`current` slice of the snapshot is read or written. -/
def AnyIPredictor.predict (p : AnyIPredictor) (value : Int) (current : List Int) : List Int :=
  match p with
  | .addConstant base field_ix => current.set field_ix (base + value)
  | .addField base_field_ix field_ix =>
    current.set field_ix (current.getD base_field_ix 0 + value)

/-- P-class predictors after header binding (`AnyPPredictor`). -/
inductive AnyPPredictor where
  | none (field_ix : Nat)
  | previous (field_ix : Nat)
  | inc (p : IncPredictor)
  | straightLine (field_ix : Nat)
  | average (field_ix : Nat)
deriving Repr, DecidableEq

/-- `AnyPPredictor::predict` (`predict(&mut self, value, snapshot)`):
returns the updated predictor (only `Inc` carries state) and the updated
`current` slice. `previous` / `previous_2` are the fixed history slots of
the snapshot. `Average` divides with Rust `i64` division, which truncates
toward zero (`Int.tdiv`). -/
def AnyPPredictor.predict (p : AnyPPredictor) (value : Int)
    (previous_2 previous current : List Int) : AnyPPredictor × List Int :=
  match p with
  | .none field_ix => (p, current.set field_ix value)
  | .previous field_ix => (p, current.set field_ix (previous.getD field_ix 0 + value))
  | .straightLine field_ix =>
    let next := previous.getD field_ix 0 - previous_2.getD field_ix 0 + previous.getD field_ix 0
    (p, current.set field_ix (next + value))
  | .average field_ix =>
    let p2 := previous_2.getD field_ix 0
    let p1 := previous.getD field_ix 0
    let avg := Int.tdiv (p1 + p2) 2
    (p, current.set field_ix (avg + value))
  | .inc q =>
    let c := current.getD q.field_ix 0
    let (base, running_sum) :=
      if c ≠ q.expected_value then (c, Frac.new 0 q.increment.denom)
      else (q.base, q.running_sum)
    let running_sum := running_sum.add q.increment
    let current_value := base + (running_sum.to_integer : Int)
    (.inc { q with base, running_sum, expected_value := current_value },
     current.set q.field_ix current_value)

/-- G-class predictors after header binding (`AnyGPredictor`). -/
inductive AnyGPredictor where
  | none (field_ix : Nat)
  | homeCoordinates (field_ix gnss_home_ix : Nat)
  | lastMainFrameTime (field_ix time_ix : Nat)
deriving Repr, DecidableEq

/-- `AnyGPredictor::predict`: writes `current[field_ix]` of the GNSS
history from the residual, the GNSS home pair, or the main `current`
slice. -/
def AnyGPredictor.predict (p : AnyGPredictor) (value : Int)
    (current : List Int) (ip_current : List Int) (gnss_home : List Int) : List Int :=
  match p with
  | .none field_ix => current.set field_ix value
  | .homeCoordinates field_ix gnss_home_ix =>
    current.set field_ix (gnss_home.getD gnss_home_ix 0 + value)
  | .lastMainFrameTime field_ix time_ix =>
    current.set field_ix (ip_current.getD time_ix 0 + value)

/-- `History` from `stream/predictor.rs`: two rolling slots plus the
`current` buffer and the two slot indices (here `Bool` instead of
`usize ∈ {0,1}`). -/
structure History where
  slot0 : List Int
  slot1 : List Int
  current : List Int
  previous_2_ix : Bool
  previous_ix : Bool
deriving Repr, DecidableEq

/-- `History::with_size(cap)`: zero-filled buffers, `previous_2_ix = 0`,
`previous_ix = 1`. -/
def History.with_size (cap : Nat) : History :=
  { slot0 := List.replicate cap 0
    slot1 := List.replicate cap 0
    current := List.replicate cap 0
    previous_2_ix := false
    previous_ix := true }

/-- Read the slot selected by an index. -/
def History.slot (h : History) (b : Bool) : List Int :=
  if b then h.slot1 else h.slot0

/-- Overwrite the slot selected by an index (`copy_from_slice`). -/
def History.set_slot (h : History) (b : Bool) (v : List Int) : History :=
  if b then { h with slot1 := v } else { h with slot0 := v }

/-- `History::values`: the `previous` slot. -/
def History.values (h : History) : List Int :=
  h.slot h.previous_ix

/-- `History::advance`: swap the two slot indices, then copy `current`
into the new `previous` slot. -/
def History.advance (h : History) : History :=
  let h := { h with previous_ix := h.previous_2_ix, previous_2_ix := h.previous_ix }
  h.set_slot h.previous_ix h.current

/-- `History::advance_reset`: copy `current` into both slots. -/
def History.advance_reset (h : History) : History :=
  (h.set_slot h.previous_2_ix h.current).set_slot h.previous_ix h.current

/-- `GNSSHistory` from `stream/predictor.rs`: the GNSS home pair (an
`[i64; 2]`, modelled as a two-element list) plus a `History`. -/
structure GNSSHistory where
  gnss_home : List Int
  history : History
deriving Repr, DecidableEq

/-- `GNSSHistory::with_size`. -/
def GNSSHistory.with_size (cap : Nat) : GNSSHistory :=
  { gnss_home := [0, 0], history := History.with_size cap }

/-- A record handed up by the processor (`LogRecord`). -/
inductive LogRecord where
  | main (values : List Int)
  | gnss (values : List Int)
  | slow (values : List Int)
  | event (f : EventFrame)
deriving Repr, DecidableEq

/-- A computation that may hit a Rust `assert!` / `panic!`. -/
inductive PanicOr (α : Type) where
  | panic
  | ok (a : α)
deriving Repr, DecidableEq

/-- `LogProcessor` from `stream/predictor.rs`. -/
structure LogProcessor where
  ip_history : History
  gnss_history : GNSSHistory
  i_predictors : List AnyIPredictor
  p_predictors : List AnyPPredictor
  g_predictors : List AnyGPredictor
deriving Repr, DecidableEq

/-- The I-frame predictor loop: `buf.into_iter().zip(i_predictors)`,
each predictor writing into the evolving `current`. -/
def run_i_predictors : List AnyIPredictor → List Int → List Int → List Int
  | p :: ps, v :: vs, current => run_i_predictors ps vs (p.predict v current)
  | _, _, current => current

/-- The P-frame predictor loop (`iter_mut`): threads the predictor list
through, with the two history slots fixed for the whole frame. -/
def run_p_predictors : List AnyPPredictor → List Int → List Int → List Int → List Int →
    List AnyPPredictor × List Int
  | p :: ps, v :: vs, previous_2, previous, current =>
    let (p2, current2) := p.predict v previous_2 previous current
    let (ps2, current3) := run_p_predictors ps vs previous_2 previous current2
    (p2 :: ps2, current3)
  | ps, _, _, _, current => (ps, current)

/-- The G-frame predictor loop. -/
def run_g_predictors : List AnyGPredictor → List Int → List Int → List Int → List Int →
    List AnyGPredictor × List Int
  | p :: ps, v :: vs, current, ip_current, gnss_home =>
    let current2 := p.predict v current ip_current gnss_home
    let (ps2, current3) := run_g_predictors ps vs current2 ip_current gnss_home
    (p :: ps2, current3)
  | ps, _, current, _, _ => (ps, current)

/-- `LogProcessor::process_frame` from `stream/predictor.rs`. The
`assert_eq!(buf.len(), predictors.len())` guards are panics; an H-frame
of exactly two values stores them as the GNSS home and no H-frame emits a
record. -/
def LogProcessor.process_frame (lp : LogProcessor) (frame : BodyFrame) :
    PanicOr (LogProcessor × Option LogRecord) :=
  match frame with
  | .iFrame buf =>
    if buf.length = lp.i_predictors.length then
      let h := lp.ip_history
      let current := run_i_predictors lp.i_predictors buf h.current
      let h := { h with current := current }.advance_reset
      .ok ({ lp with ip_history := h }, some (.main h.values))
    else .panic
  | .pFrame buf =>
    if buf.length = lp.p_predictors.length then
      let h := lp.ip_history
      let (preds, current) :=
        run_p_predictors lp.p_predictors buf (h.slot h.previous_2_ix) (h.slot h.previous_ix)
          h.current
      let h := { h with current := current }.advance
      .ok ({ lp with ip_history := h, p_predictors := preds }, some (.main h.values))
    else .panic
  | .hFrame buf =>
    if buf.length = 2 then
      .ok ({ lp with
              gnss_history :=
                { lp.gnss_history with gnss_home := [buf.getD 0 0, buf.getD 1 0] } },
           none)
    else .ok (lp, none)
  | .gFrame buf =>
    if buf.length = lp.g_predictors.length then
      let gh := lp.gnss_history
      let h := gh.history
      let (preds, current) :=
        run_g_predictors lp.g_predictors buf h.current lp.ip_history.current gh.gnss_home
      let h := { h with current := current }.advance
      .ok ({ lp with
              gnss_history := { gh with history := h }
              g_predictors := preds },
           some (.gnss h.values))
    else .panic
  | .sFrame buf => .ok (lp, some (.slow buf))
  | .event f => .ok (lp, some (.event f))

/-- The mutable state of a `BlackboxReader` (`lib.rs`). -/
structure ReaderState where
  remaining : List Nat
  header : Header
  processor : LogProcessor
  last_loop_iteration : Int
  last_time : Int
  last_values : List Int
  loop_iteration_field_ix : Nat
  time_field_ix : Nat
deriving Repr, DecidableEq

/-- The outcome of one iteration of the loop inside
`BlackboxReader::next`: a record is returned, the loop continues with an
updated state, the iterator returns `None`, or the process panics. -/
inductive NextStep where
  | yield (st : ReaderState) (rec : LogRecord)
  | cont (st : ReaderState)
  | stop
  | panic
deriving Repr, DecidableEq

/-- One iteration of the loop in `BlackboxReader::next` (`lib.rs`): parse
a frame and process it; on `Error` or `Failure` advance one byte past the
recorded error position when any bytes remain there (and retry); on
`Incomplete` return `None`. -/
def BlackboxReader.next_step (st : ReaderState) : NextStep :=
  match parse_next_frame st.header st.remaining with
  | .panic => .panic
  | .incomplete => .stop
  | .err pos => .cont (if pos.length > 0 then { st with remaining := pos.tail } else st)
  | .fail pos => .cont (if pos.length > 0 then { st with remaining := pos.tail } else st)
  | .ok rest frame =>
    match st.processor.process_frame frame with
    | .panic => .panic
    | .ok (proc, Option.none) => .cont { st with remaining := rest, processor := proc }
    | .ok (proc, some rec) =>
      match rec with
      | .main values =>
        .yield
          { st with
              remaining := rest
              processor := proc
              last_loop_iteration := values.getD st.loop_iteration_field_ix 0
              last_time := values.getD st.time_field_ix 0
              last_values := values }
          (.main values)
      | .gnss values =>
        .yield { st with remaining := rest, processor := proc, last_values := values }
          (.gnss values)
      | .slow values =>
        .yield { st with remaining := rest, processor := proc } (.slow values)
      | .event f =>
        .yield { st with remaining := rest, processor := proc } (.event f)

/-- Extract the record (if any) produced by `process_frame`. -/
def emitted_record (r : PanicOr (LogProcessor × Option LogRecord)) : Option LogRecord :=
  match r with
  | .ok (_, rec) => rec
  | .panic => Option.none

/-- A minimal well-formed header: one `SignedVB` field per record class. -/
def test_header : Header :=
  ⟨[.signedVB], [.signedVB], [.signedVB], [.signedVB], [.signedVB]⟩

/-- The processor obtained from `test_header` with a `None`-style
predictor per class. -/
def test_processor : LogProcessor :=
  { ip_history := History.with_size 1
    gnss_history := GNSSHistory.with_size 1
    i_predictors := [.addConstant 0 0]
    p_predictors := [.previous 0]
    g_predictors := [.none 0] }

/-- A fresh reader state over `test_header` with the given remaining
body bytes. -/
def mk_state (input : List Nat) : ReaderState :=
  { remaining := input
    header := test_header
    processor := test_processor
    last_loop_iteration := 0
    last_time := 0
    last_values := []
    loop_iteration_field_ix := 0
    time_field_ix := 0 }

/-- Reading a slot of an updated history: only the written slot changes. -/
theorem History.slot_set_slot (h : History) (b c : Bool) (v : List Int) :
    (h.set_slot b v).slot c = if c = b then v else h.slot c := by
  cases b <;> cases c <;> simp [History.set_slot, History.slot]

/-- After `advance_reset`, the `previous` slot holds `current`. -/
theorem History.advance_reset_previous (h : History) :
    h.advance_reset.slot h.advance_reset.previous_ix = h.current := by
  obtain ⟨s0, s1, c, p2, p⟩ := h
  cases p2 <;> cases p <;> simp [History.advance_reset, History.set_slot, History.slot]

/-- After `advance_reset`, the `previous2` slot also holds `current`. -/
theorem History.advance_reset_previous_2 (h : History) :
    h.advance_reset.slot h.advance_reset.previous_2_ix = h.current := by
  obtain ⟨s0, s1, c, p2, p⟩ := h
  cases p2 <;> cases p <;> simp [History.advance_reset, History.set_slot, History.slot]

/-- After `advance`, the new `previous` slot holds `current`. -/
theorem History.advance_previous (h : History) :
    h.advance.slot h.advance.previous_ix = h.current := by
  obtain ⟨s0, s1, c, p2, p⟩ := h
  cases p2 <;> cases p <;> simp [History.advance, History.set_slot, History.slot]

/-- After `advance` of a history with distinct slot indices, the new
`previous2` slot holds what the `previous` slot held before. -/
theorem History.advance_previous_2 (h : History) (hx : h.previous_ix ≠ h.previous_2_ix) :
    h.advance.slot h.advance.previous_2_ix = h.slot h.previous_ix := by
  obtain ⟨s0, s1, c, p2, p⟩ := h
  cases p2 <;> cases p <;>
    simp_all [History.advance, History.set_slot, History.slot]

/-- C1 (counterexample): on the concrete body byte `0x00` — not one of
`I P S G H E 0xFF` — the reader step panics; it is not the soft-error
resynchronisation step (advance one byte and retry) that the claim
asserts. -/
theorem C1_counterexample :
    BlackboxReader.next_step (mk_state [0, 73]) = NextStep.panic ∧
    NextStep.panic ≠ NextStep.cont (mk_state [73]) := by
  decide

/-- C1 (amended): for every input whose leading byte is not one of
`I P S G H E 0xFF`, the body-record router hits the
`panic!("Unknown frame …")` arm — the lenient iterator neither
resynchronises nor terminates there; only the `0xFF` padding byte is a
soft decode error, on which the iterator advances exactly one byte and
retries. -/
theorem C1_unknown_byte_panics (hdr : Header) (st st' : ReaderState) (b : Nat) (rest : List Nat)
    (h73 : b ≠ 73) (h80 : b ≠ 80) (h83 : b ≠ 83) (h71 : b ≠ 71) (h72 : b ≠ 72)
    (h69 : b ≠ 69) (h255 : b ≠ 255)
    (hrem : st.remaining = b :: rest) (hrem' : st'.remaining = 255 :: rest) :
    parse_next_frame hdr (b :: rest) = .panic ∧
    BlackboxReader.next_step st = .panic ∧
    parse_next_frame hdr (255 :: rest) = .err (255 :: rest) ∧
    BlackboxReader.next_step st' = .cont { st' with remaining := rest } := by
  refine ⟨?_, ?_, ?_, ?_⟩
  · simp [parse_next_frame, h73, h80, h83, h71, h72, h69, h255]
  · unfold BlackboxReader.next_step
    rw [hrem]
    simp [parse_next_frame, h73, h80, h83, h71, h72, h69, h255]
  · simp [parse_next_frame]
  · unfold BlackboxReader.next_step
    rw [hrem']
    simp [parse_next_frame]

/-- C1 witness: the amended claim at byte `0x00` with one trailing byte. -/
theorem C1_witness :
    parse_next_frame test_header [0, 73] = .panic ∧
    BlackboxReader.next_step (mk_state [0, 73]) = .panic ∧
    parse_next_frame test_header [255, 73] = .err [255, 73] ∧
    BlackboxReader.next_step (mk_state [255, 73]) = .cont { mk_state [255, 73] with remaining := [73] } :=
  C1_unknown_byte_panics test_header (mk_state [0, 73]) (mk_state [255, 73]) 0 [73]
    (by decide) (by decide) (by decide) (by decide) (by decide) (by decide) (by decide)
    rfl rfl

/-- C2 (counterexample): a varint of five continuation bytes inside a
P-frame is a `Failure`, but the iterator does not terminate on it: the
next step is a `cont` (skip ahead and retry), not `stop`. -/
theorem C2_counterexample :
    BlackboxReader.next_step (mk_state [80, 128, 128, 128, 128, 128, 5]) =
      NextStep.cont { mk_state [80, 128, 128, 128, 128, 128, 5] with remaining := [] } ∧
    NextStep.cont { mk_state [80, 128, 128, 128, 128, 128, 5] with remaining := [] } ≠
      NextStep.stop := by
  decide

/-- C2 (amended): varint decoding accepts at most five bytes — a
five-byte encoding whose fifth byte has the continuation bit clear is
accepted, while a fifth byte with the continuation bit set is a fatal
decode error (`nom::Err::Failure`); the iterator however does not
terminate on that failure: it continues (advancing past the failure
position) like a soft error. -/
theorem C2_varint_five_byte_limit (b0 b1 b2 b3 b4 : Nat) (rest : List Nat) (st : ReaderState)
    (h0 : b0 &&& 128 ≠ 0) (h1 : b1 &&& 128 ≠ 0) (h2 : b2 &&& 128 ≠ 0) (h3 : b3 &&& 128 ≠ 0)
    (hst : st.remaining = 80 :: b0 :: b1 :: b2 :: b3 :: b4 :: rest)
    (hhdr : st.header = test_header) :
    (b4 &&& 128 = 0 → ∃ v, take_varint (b0 :: b1 :: b2 :: b3 :: b4 :: rest) = .ok rest v) ∧
    (b4 &&& 128 ≠ 0 →
      take_varint (b0 :: b1 :: b2 :: b3 :: b4 :: rest) = .fail rest ∧
      ∃ st2, BlackboxReader.next_step st = .cont st2) := by
  constructor
  · intro hb4
    have hok : take_varint (b0 :: b1 :: b2 :: b3 :: b4 :: rest) =
        .ok rest ((b0 &&& 127) % 4294967296 ||| (b1 &&& 127) <<< 7 % 4294967296 |||
          (b2 &&& 127) <<< 14 % 4294967296 ||| (b3 &&& 127) <<< 21 % 4294967296 |||
          (b4 &&& 127) <<< 28 % 4294967296) := by
      simp [take_varint, take_varint_loop, h0, h1, h2, h3, hb4]
    exact ⟨_, hok⟩
  · intro hb4
    have hv : take_varint (b0 :: b1 :: b2 :: b3 :: b4 :: rest) = .fail rest := by
      simp [take_varint, take_varint_loop, h0, h1, h2, h3, hb4]
    refine ⟨hv, ?_⟩
    unfold BlackboxReader.next_step
    rw [hst, hhdr]
    simp [parse_next_frame, parse_owned_frame, nom_tag, nom_tag_go, test_header,
      parse_owned_frame_payload, FieldEncoding.parse, PR.bind, PR.map, hv]

/-- C2 witness: five concrete continuation bytes are a failure skipped
over by the reader, and clearing the fifth continuation bit makes the
same five bytes an accepted varint. -/
theorem C2_witness :
    ((4 : Nat) &&& 128 = 0 →
      ∃ v, take_varint [128, 128, 128, 128, 4] = .ok [] v) ∧
    ((128 : Nat) &&& 128 ≠ 0 →
      take_varint [128, 128, 128, 128, 128] = .fail [] ∧
      ∃ st2, BlackboxReader.next_step (mk_state [80, 128, 128, 128, 128, 128]) = .cont st2) := by
  constructor
  · intro h
    exact (C2_varint_five_byte_limit 128 128 128 128 4 [] (mk_state [80, 128, 128, 128, 128, 4])
      (by decide) (by decide) (by decide) (by decide) rfl rfl).1 h
  · intro h
    exact (C2_varint_five_byte_limit 128 128 128 128 128 [] (mk_state [80, 128, 128, 128, 128, 128])
      (by decide) (by decide) (by decide) (by decide) rfl rfl).2 h

/-- A one-field processor whose single P-predictor is `Average2`, with
`previous2 = [p2]`, `previous = [p1]` and `current = [c]`. -/
def average_processor (p2 p1 c : Int) : LogProcessor :=
  { ip_history :=
      { slot0 := [p2], slot1 := [p1], current := [c]
        previous_2_ix := false, previous_ix := true }
    gnss_history := GNSSHistory.with_size 0
    i_predictors := [.addConstant 0 0]
    p_predictors := [.average 0]
    g_predictors := [] }

/-- C4 (counterexample): with `previous = 0`, `previous2 = -1` and
residual `0`, the code decodes `0` (Rust `i64` division truncates toward
zero), while the claimed `floor((previous + previous2) / 2) + v` is `-1`. -/
theorem C4_counterexample :
    emitted_record ((average_processor (-1) 0 0).process_frame (.pFrame [0])) =
      some (.main [0]) ∧
    Int.fdiv (0 + (-1)) 2 + 0 = -1 ∧ ((0 : Int) ≠ -1) := by
  decide

/-- C4 (amended): for every P-frame field with the `Average2` predictor,
every residual `v` and every history state, the decoded value equals
`(previous + previous2) / 2 + v` with division truncating toward zero
(`Int.tdiv`, one above `floor` for negative odd sums); the sum is taken
directly in 64-bit arithmetic. -/
theorem C4_average_truncating_division (p2 p1 c v : Int) :
    emitted_record ((average_processor p2 p1 c).process_frame (.pFrame [v])) =
      some (.main [Int.tdiv (p1 + p2) 2 + v]) :=
  rfl

/-- C5 (counterexample): the varint `[0x80, 0x80, 0x01]` decodes to
`n = 16384` (bit 14 set, low 14 bits zero); the code yields `-16384`
because the `as u16` truncation keeps bits 14–15, while the claim's
sign-extension of the low 14 bits would yield `0`. -/
theorem C5_counterexample :
    take_varint [128, 128, 1] = .ok [] 16384 ∧
    FieldEncoding.parse .negative14BitVB [128, 128, 1] = .ok [] (.signed (-16384)) ∧
    ((-16384 : Int) ≠ 0) := by
  decide

/-- C6 (counterexample): `Tag2_3S32` header byte `0xC6` carries the
selectors `(10, 01, 00)`, i.e. i24, i16, i8: after the nine payload bytes
`01 00 00 02 00 FF 09 09 09` the decoder consumes only six of them and
yields `(1, 2, -1)`, not the claimed i24/i16/i32 split which would read
all nine bytes and yield third value `0x090909FF = 151587327`. -/
theorem C6_counterexample :
    FieldEncoding.parse (.tag2_3S32 3) [198, 1, 0, 0, 2, 0, 255, 9, 9, 9] =
      .ok [9, 9, 9] (.signedTriple (1, 2, -1)) ∧
    (Field.signedTriple (1, 2, -1) ≠ Field.signedTriple (1, 2, 151587327)) := by
  decide

/-- Masking with a single power of two isolates that bit. -/
theorem and_two_pow_eq (x i : Nat) :
    x &&& 2 ^ i = if x.testBit i then 2 ^ i else 0 := by
  apply Nat.eq_of_testBit_eq
  intro j
  rw [Nat.testBit_and]
  by_cases hx : x.testBit i
  · simp only [hx, if_true]
    by_cases h : i = j
    · subst h
      simp [hx, Nat.testBit_two_pow]
    · simp [Nat.testBit_two_pow, h]
  · simp only [hx, if_false, Nat.zero_testBit]
    by_cases h : i = j
    · subst h
      simp [hx]
    · simp [Nat.testBit_two_pow, h]

/-- Or-ing a 16-bit word with `0xC000` keeps its low 14 bits and forces
bits 14 and 15. -/
theorem or_c000 (w : Nat) (hw : w < 65536) : w ||| 49152 = w % 16384 + 49152 := by
  apply Nat.eq_of_testBit_eq
  intro j
  have h49152 : (49152 : Nat) = 2 ^ 14 * 3 + 0 := by norm_num
  have hrhs : w % 16384 + 49152 = 2 ^ 14 * 3 + w % 16384 := by omega
  rw [Nat.testBit_or, hrhs,
    Nat.testBit_mul_pow_two_add 3 (show w % 16384 < 2 ^ 14 by omega) j]
  by_cases hj : j < 14
  · have h49 : Nat.testBit 49152 j = false := by
      rw [h49152, Nat.testBit_mul_pow_two_add 3 (show (0 : Nat) < 2 ^ 14 by norm_num) j]
      simp [hj, Nat.zero_testBit]
    have hmod : (w % 16384).testBit j = w.testBit j := by
      rw [show (16384 : Nat) = 2 ^ 14 from by norm_num, Nat.testBit_mod_two_pow]
      simp [hj]
    simp [hj, h49, hmod]
  · by_cases hj16 : j < 16
    · have hj' : j = 14 ∨ j = 15 := by omega
      have h3 : Nat.testBit 3 (j - 14) = true := by
        rcases hj' with h | h <;> subst h <;> decide
      have h49 : Nat.testBit 49152 j = true := by
        rcases hj' with h | h <;> subst h <;> decide
      simp [hj, h3, h49]
    · have h2j : (65536 : Nat) ≤ 2 ^ j := by
        calc (65536 : Nat) = 2 ^ 16 := by norm_num
          _ ≤ 2 ^ j := Nat.pow_le_pow_right (by norm_num) (by omega)
      have h2j' : (4 : Nat) ≤ 2 ^ (j - 14) := by
        calc (4 : Nat) = 2 ^ 2 := by norm_num
          _ ≤ 2 ^ (j - 14) := Nat.pow_le_pow_right (by norm_num) (by omega)
      have hw' : Nat.testBit w j = false := Nat.testBit_lt_two_pow (by omega)
      have h49 : Nat.testBit 49152 j = false := Nat.testBit_lt_two_pow (by omega)
      have h3 : Nat.testBit 3 (j - 14) = false := Nat.testBit_lt_two_pow (by omega)
      simp [hj, hw', h49, h3]

/-- C5 (amended): for every decoded varint `n`, `Negative14BitVB` yields
the negation of `sign_extend_14bit` applied to the low 16 bits of `n`:
when bit 13 of `n` is clear the result is `-(n mod 2^16)` — so bits 14
and 15 of `n` do affect the result — and when bit 13 is set the result is
`16384 - (n mod 2^14)`; bits 16 and above never matter, and varint `0`
yields `0`. -/
theorem C5_negative14bit (input rest : List Nat) (n : Nat)
    (h : take_varint input = .ok rest n) :
    ∃ v : Int, FieldEncoding.parse .negative14BitVB input = .ok rest (.signed v) ∧
      (Nat.testBit n 13 = false → v = -((n % 65536 : Nat) : Int)) ∧
      (Nat.testBit n 13 = true → v = 16384 - ((n % 16384 : Nat) : Int)) ∧
      (n = 0 → v = 0) := by
  refine ⟨-(sign_extend_14bit (n % 2 ^ 16)), ?_, ?_, ?_, ?_⟩
  · simp [FieldEncoding.parse, PR.map, PR.bind, h]
  · intro ht
    have h13 : (n % 2 ^ 16).testBit 13 = false := by
      rw [Nat.testBit_mod_two_pow]
      simp [ht]
    have hand : (n % 2 ^ 16) &&& 8192 = 0 := by
      rw [show (8192 : Nat) = 2 ^ 13 from by norm_num, and_two_pow_eq, h13]
      simp
    rw [sign_extend_14bit, if_neg (not_not_intro hand)]
    norm_num
  · intro ht
    have h13 : (n % 2 ^ 16).testBit 13 = true := by
      rw [Nat.testBit_mod_two_pow]
      simp [ht]
    have hand : (n % 2 ^ 16) &&& 8192 ≠ 0 := by
      rw [show (8192 : Nat) = 2 ^ 13 from by norm_num, and_two_pow_eq, h13]
      norm_num
    have hor := or_c000 (n % 2 ^ 16) (Nat.mod_lt _ (by norm_num))
    have hmod : n % 2 ^ 16 % 16384 = n % 16384 :=
      Nat.mod_mod_of_dvd n (by norm_num)
    have hlt : n % 16384 < 16384 := Nat.mod_lt _ (by norm_num)
    rw [sign_extend_14bit, if_pos hand, hor, hmod]
    unfold toSigned
    have hsum : n % 16384 + 49152 < 2 ^ 16 := by omega
    rw [Nat.mod_eq_of_lt (by omega : n % 16384 + 49152 < 2 ^ 16),
      if_neg (by omega)]
    push_cast
    omega
  · intro h0
    subst h0
    decide

/-- C5 witness: the amended description evaluated at the concrete varint
`[0x80, 0x80, 0x01]`, i.e. `n = 16384`. -/
theorem C5_witness :
    ∃ v : Int, FieldEncoding.parse .negative14BitVB [128, 128, 1] = .ok [] (.signed v) ∧
      (Nat.testBit 16384 13 = false → v = -((16384 % 65536 : Nat) : Int)) ∧
      (Nat.testBit 16384 13 = true → v = 16384 - ((16384 % 16384 : Nat) : Int)) ∧
      ((16384 : Nat) = 0 → v = 0) :=
  C5_negative14bit [128, 128, 1] [] 16384 (by decide)

/-- C6 (amended): in `Tag2_3S32` mode `11` the header byte carrying the
width selectors `10, 01, 11` (i24, i16, i32) is `0xF6`: the following
three bytes decode as a little-endian i24, the next two as an i16 and the
next four as an i32, each sign-extended. -/
theorem C6_tag2_3s32_mode11 (a0 a1 a2 b0 b1 c0 c1 c2 c3 : Nat) (rest : List Nat) :
    FieldEncoding.parse (.tag2_3S32 3)
        (246 :: a0 :: a1 :: a2 :: b0 :: b1 :: c0 :: c1 :: c2 :: c3 :: rest) =
      .ok rest (.signedTriple
        (toSigned 24 (le_value [a0, a1, a2]),
         toSigned 16 (le_value [b0, b1]),
         toSigned 32 (le_value [c0, c1, c2, c3]))) :=
  rfl

/-- C7: an H-frame with exactly two decoded values stores them as the
GNSS home coordinates and changes nothing else; an H-frame with any other
number of values (including zero) leaves the whole decoder state
unchanged; in neither case is a record emitted. -/
theorem C7_hframe_home_update (lp : LogProcessor) (buf : List Int) :
    (buf.length = 2 →
      lp.process_frame (.hFrame buf) =
        .ok ({ lp with
                gnss_history :=
                  { lp.gnss_history with gnss_home := [buf.getD 0 0, buf.getD 1 0] } },
             Option.none)) ∧
    (buf.length ≠ 2 → lp.process_frame (.hFrame buf) = .ok (lp, Option.none)) := by
  constructor
  · intro h
    simp [LogProcessor.process_frame, h]
  · intro h
    simp [LogProcessor.process_frame, h]

/-- C7 witness: the H-frame effect at a concrete processor, once with two
values and once with one value. -/
theorem C7_witness :
    test_processor.process_frame (.hFrame [5, 6]) =
      .ok ({ test_processor with
              gnss_history := { test_processor.gnss_history with gnss_home := [5, 6] } },
           Option.none) ∧
    test_processor.process_frame (.hFrame [7]) = .ok (test_processor, Option.none) :=
  ⟨(C7_hframe_home_update test_processor [5, 6]).1 rfl,
   (C7_hframe_home_update test_processor [7]).2 (by decide)⟩

/-- A one-field processor whose single P-predictor is `Increment` with
`p_interval = 2/1` (step `1/2`), over a fresh history. -/
def increment_processor : LogProcessor :=
  { ip_history := History.with_size 1
    gnss_history := GNSSHistory.with_size 0
    i_predictors := [.addConstant 0 0]
    p_predictors := [.inc (IncPredictor.new 0 (Frac.new 2 1))]
    g_predictors := [] }

/-- C8: with the `Increment` predictor and `p_interval = 2/1` (step
`1/2`), starting from base `0` with fresh history, two successive
P-frames (with any residuals — the predictor ignores them) emit the
values `0` then `1`, the floors of the running sums `1/2` and `1`. -/
theorem C8_increment_half_steps (v1 v2 : Int) :
    ∃ lp1 lp2,
      increment_processor.process_frame (.pFrame [v1]) = .ok (lp1, some (.main [0])) ∧
      lp1.process_frame (.pFrame [v2]) = .ok (lp2, some (.main [1])) :=
  ⟨_, _, rfl, rfl⟩

/-- Modelled from the spec (§4.1, §8): the minimal little-endian
seven-bits-per-byte varint encoding of `n`, continuation bit set on every
byte but the last. The repository only decodes; this encoder follows the
spec's words for the round-trip property. -/
def encode_varint (n : Nat) : List Nat :=
  if n < 128 then [n]
  else (n % 128 + 128) :: encode_varint (n / 128)
decreasing_by exact Nat.div_lt_self (by omega) (by omega)

/-- Unfolding of `encode_varint` on a final byte. -/
theorem encode_varint_lt {n : Nat} (h : n < 128) : encode_varint n = [n] := by
  rw [encode_varint, if_pos h]

/-- Unfolding of `encode_varint` on a continuation byte. -/
theorem encode_varint_ge {n : Nat} (h : ¬n < 128) :
    encode_varint n = (n % 128 + 128) :: encode_varint (n / 128) := by
  rw [encode_varint, if_neg h]

/-- The minimal encoding of `n < 2 ^ (7 * (k + 1))` has at most `k + 1`
bytes. -/
theorem encode_varint_length : ∀ k n : Nat, n < 2 ^ (7 * (k + 1)) →
    (encode_varint n).length ≤ k + 1 := by
  intro k
  induction k with
  | zero =>
    intro n hn
    rw [encode_varint_lt (by omega : n < 128)]
    simp
  | succ k ih =>
    intro n hn
    by_cases h : n < 128
    · rw [encode_varint_lt h]
      simp
    · rw [encode_varint_ge h]
      have hdiv : n / 128 < 2 ^ (7 * (k + 1)) := by
        have hmul : n < 2 ^ (7 * (k + 1)) * 128 := by
          have : 2 ^ (7 * (k + 1 + 1)) = 2 ^ (7 * (k + 1)) * 2 ^ 7 := by
            rw [show 7 * (k + 1 + 1) = 7 * (k + 1) + 7 from by ring, Nat.pow_add]
          omega
        omega
      have := ih (n / 128) hdiv
      simp
      try omega

/-- Splitting a number at bit 7: the shifted low seven bits or-ed with
the shifted-further remaining bits recover the shifted whole. -/
theorem lor_split7 (n m : Nat) :
    ((n % 128) <<< m) ||| ((n / 128) <<< (m + 7)) = n <<< m := by
  apply Nat.eq_of_testBit_eq
  intro i
  rw [Nat.testBit_or,
    show (128 : Nat) = 2 ^ 7 from by norm_num,
    show n / 2 ^ 7 = n >>> 7 from (Nat.shiftRight_eq_div_pow n 7).symm]
  simp only [Nat.testBit_shiftLeft, Nat.testBit_shiftRight, Nat.testBit_mod_two_pow,
    ge_iff_le]
  by_cases h1 : m ≤ i
  · by_cases h2 : m + 7 ≤ i
    · have e1 : ¬i - m < 7 := by omega
      have e2 : 7 + (i - (m + 7)) = i - m := by omega
      simp [h1, h2, e1, e2]
    · have e1 : i - m < 7 := by omega
      simp [h1, h2, e1]
  · have h2 : ¬m + 7 ≤ i := by omega
    simp [h1, h2]

/-- A byte below 128 has the continuation bit clear. -/
theorem cont_bit_clear (m : Nat) (hm : m < 128) : m &&& 128 = 0 := by
  rw [show (128 : Nat) = 2 ^ 7 from by norm_num, and_two_pow_eq,
    Nat.testBit_lt_two_pow (show m < 2 ^ 7 by omega)]
  simp

/-- Adding 128 to a 7-bit value sets the continuation bit. -/
theorem cont_bit_set (m : Nat) (hm : m < 128) : (m + 128) &&& 128 ≠ 0 := by
  rw [show m + 128 = 2 ^ 7 * 1 + m from by omega,
    show (128 : Nat) = 2 ^ 7 from by norm_num, and_two_pow_eq,
    Nat.testBit_mul_pow_two_add 1 (show m < 2 ^ 7 by omega) 7]
  simp

/-- Adding 128 to a 7-bit value does not change its low seven bits. -/
theorem low_bits_add_128 (m : Nat) (hm : m < 128) : (m + 128) &&& 127 = m := by
  rw [show (127 : Nat) = 2 ^ 7 - 1 from by norm_num, Nat.and_pow_two_sub_one_eq_mod]
  omega

/-- The varint loop consumes exactly the minimal encoding of `n` and ors
`n <<< (position * 7)` into the accumulator, provided the encoding fits
in the remaining fuel and the shifted value fits in 32 bits. -/
theorem take_varint_loop_encode :
    ∀ n fuel position res : Nat, ∀ rest : List Nat,
      (encode_varint n).length ≤ fuel →
      n <<< (position * 7) < 2 ^ 32 →
      take_varint_loop fuel position res (encode_varint n ++ rest) =
        .ok rest (res ||| n <<< (position * 7)) := by
  intro n
  induction n using Nat.strong_induction_on with
  | _ n ih =>
    intro fuel position res rest hlen hlt
    by_cases h : n < 128
    · rw [encode_varint_lt h] at hlen ⊢
      obtain ⟨f, rfl⟩ : ∃ f, fuel = f + 1 := ⟨fuel - 1, by simp at hlen; omega⟩
      have hv : n &&& 127 = n := by
        rw [show (127 : Nat) = 2 ^ 7 - 1 from by norm_num,
          Nat.and_pow_two_sub_one_eq_mod, Nat.mod_eq_of_lt h]
      have hc : n &&& 128 = 0 := cont_bit_clear n h
      have hlt' : n <<< (position * 7) < 4294967296 := by
        have h32 : (2 : Nat) ^ 32 = 4294967296 := by norm_num
        omega
      have hmask : n <<< (position * 7) % 4294967296 = n <<< (position * 7) :=
        Nat.mod_eq_of_lt hlt'
      simp [take_varint_loop, hv, hc, hmask]
    · rw [encode_varint_ge h] at hlen ⊢
      obtain ⟨f, rfl⟩ : ∃ f, fuel = f + 1 := ⟨fuel - 1, by simp at hlen; omega⟩
      have hlen' : (encode_varint (n / 128)).length ≤ f := by simpa using hlen
      have hv : (n % 128 + 128) &&& 127 = n % 128 :=
        low_bits_add_128 (n % 128) (Nat.mod_lt _ (by omega))
      have hc : (n % 128 + 128) &&& 128 ≠ 0 :=
        cont_bit_set (n % 128) (Nat.mod_lt _ (by omega))
      have hlt1 : (n % 128) <<< (position * 7) < 2 ^ 32 := by
        rw [Nat.shiftLeft_eq] at hlt ⊢
        exact lt_of_le_of_lt (Nat.mul_le_mul_right _ (Nat.mod_le n 128)) hlt
      have hmask : (n % 128) <<< (position * 7) % 4294967296 =
          (n % 128) <<< (position * 7) := by
        have h32 : (2 : Nat) ^ 32 = 4294967296 := by norm_num
        exact Nat.mod_eq_of_lt (by omega)
      have hlt2 : (n / 128) <<< ((position + 1) * 7) < 2 ^ 32 := by
        rw [Nat.shiftLeft_eq] at hlt ⊢
        calc n / 128 * 2 ^ ((position + 1) * 7)
            = n / 128 * 2 ^ 7 * 2 ^ (position * 7) := by
              rw [show (position + 1) * 7 = position * 7 + 7 from by ring, Nat.pow_add]
              ring
          _ ≤ n * 2 ^ (position * 7) := by
              have := Nat.div_mul_le_self n 128
              exact Nat.mul_le_mul_right _ (by omega)
          _ < 2 ^ 32 := hlt
      have ihres := ih (n / 128) (Nat.div_lt_self (by omega) (by omega)) f (position + 1)
        (res ||| (n % 128) <<< (position * 7)) rest hlen' hlt2
      simp [take_varint_loop, hv, hc, hmask]
      rw [ihres, Nat.or_assoc,
        show (position + 1) * 7 = position * 7 + 7 from by ring, lor_split7]

/-- C9: for every `u32` value `n`, decoding the minimal little-endian
seven-bits-per-byte varint encoding of `n` (continuation bit set on every
byte but the last) consumes exactly the encoding and yields `n`. -/
theorem C9_varint_roundtrip (n : Nat) (rest : List Nat) (h : n < 2 ^ 32) :
    take_varint (encode_varint n ++ rest) = .ok rest n := by
  have hlen : (encode_varint n).length ≤ 5 :=
    encode_varint_length 4 n (lt_trans h (by norm_num))
  have hres := take_varint_loop_encode n 5 0 0 rest hlen (by simpa using h)
  simpa [take_varint] using hres

/-- C9 witness: the round-trip at the concrete value `300`. -/
theorem C9_witness : take_varint (encode_varint 300 ++ [7]) = .ok [7] 300 :=
  C9_varint_roundtrip 300 [7] (by norm_num)

/-- C10: calling `next` on a reader whose remaining input is empty
panics via the unchecked `input[0]` index in `parse_next_frame` instead
of returning `None`; the dispatcher never checks that a byte is
available. -/
theorem C10_empty_input_panics (hdr : Header) (st : ReaderState) (h : st.remaining = []) :
    parse_next_frame hdr [] = .panic ∧
    BlackboxReader.next_step st = .panic ∧
    NextStep.panic ≠ NextStep.stop := by
  refine ⟨rfl, ?_, by decide⟩
  unfold BlackboxReader.next_step
  rw [h]
  rfl

/-- C3: after a `Main` record emitted from an I-frame, the `previous` and
`previous2` buffers both hold the emitted values; after a `Main` record
emitted from a P-frame, the new `previous` holds the emitted values and
`previous2` holds what `previous` was before the frame (for any history
whose two slot indices are distinct, as every reachable history's are). -/
theorem C3_history_after_main (lp : LogProcessor) (buf : List Int)
    (hI : buf.length = lp.i_predictors.length)
    (hP : buf.length = lp.p_predictors.length)
    (hx : lp.ip_history.previous_ix ≠ lp.ip_history.previous_2_ix) :
    (∃ lp' vals, lp.process_frame (.iFrame buf) = .ok (lp', some (.main vals)) ∧
       lp'.ip_history.slot lp'.ip_history.previous_ix = vals ∧
       lp'.ip_history.slot lp'.ip_history.previous_2_ix = vals) ∧
    (∃ lp' vals, lp.process_frame (.pFrame buf) = .ok (lp', some (.main vals)) ∧
       lp'.ip_history.slot lp'.ip_history.previous_ix = vals ∧
       lp'.ip_history.slot lp'.ip_history.previous_2_ix =
         lp.ip_history.slot lp.ip_history.previous_ix) := by
  constructor
  · have hEq : lp.process_frame (.iFrame buf) =
        .ok ({ lp with
                ip_history :=
                  ({ lp.ip_history with
                      current := run_i_predictors lp.i_predictors buf
                        lp.ip_history.current }).advance_reset },
             some (.main
               ({ lp.ip_history with
                   current := run_i_predictors lp.i_predictors buf
                     lp.ip_history.current }).advance_reset.values)) := by
      simp only [LogProcessor.process_frame]
      rw [if_pos hI]
    refine ⟨_, _, hEq, rfl, ?_⟩
    simp [History.values, History.advance_reset_previous, History.advance_reset_previous_2]
  · rcases hrp : run_p_predictors lp.p_predictors buf
        (lp.ip_history.slot lp.ip_history.previous_2_ix)
        (lp.ip_history.slot lp.ip_history.previous_ix) lp.ip_history.current
      with ⟨preds, cur⟩
    have hEq : lp.process_frame (.pFrame buf) =
        .ok ({ lp with
                ip_history := ({ lp.ip_history with current := cur }).advance
                p_predictors := preds },
             some (.main ({ lp.ip_history with current := cur }).advance.values)) := by
      simp only [LogProcessor.process_frame]
      rw [if_pos hP, hrp]
    refine ⟨_, _, hEq, rfl, ?_⟩
    have hx' : ({ lp.ip_history with current := cur } : History).previous_ix ≠
        ({ lp.ip_history with current := cur } : History).previous_2_ix := hx
    simpa [History.slot] using History.advance_previous_2 _ hx'

/-- C3 witness: the two history equalities at a concrete processor and
frame. -/
theorem C3_witness :
    (∃ lp' vals, test_processor.process_frame (.iFrame [4]) = .ok (lp', some (.main vals)) ∧
       lp'.ip_history.slot lp'.ip_history.previous_ix = vals ∧
       lp'.ip_history.slot lp'.ip_history.previous_2_ix = vals) ∧
    (∃ lp' vals, test_processor.process_frame (.pFrame [4]) = .ok (lp', some (.main vals)) ∧
       lp'.ip_history.slot lp'.ip_history.previous_ix = vals ∧
       lp'.ip_history.slot lp'.ip_history.previous_2_ix =
         test_processor.ip_history.slot test_processor.ip_history.previous_ix) :=
  C3_history_after_main test_processor [4] rfl rfl (by decide)

/-- C10 witness: the empty-input panic at a concrete reader state. -/
theorem C10_witness :
    parse_next_frame test_header [] = .panic ∧
    BlackboxReader.next_step (mk_state []) = .panic ∧
    NextStep.panic ≠ NextStep.stop :=
  C10_empty_input_panics test_header (mk_state []) rfl

end Blackbox
